import Mathlib

/-!
# Verification of the NotebookLM assistant's protocol/extraction adapter

This file shallowly embeds the parts of the browser-extension source that the
specification's claims are about, and proves (or refutes) each claim:

* `src/lib/text-splitter.ts` (`TextSplitter.splitText`) — the boundary-aware
  chunking algorithm;
* `src/services/notebooklm-api.ts` (`NotebookLMService`) — the inline RPC
  error-code handling of `addSource` / `addTextSource`, the token-refresh
  guard of `getTokens`, and the per-source row parsing of
  `parseNotebookDetails`;
* `src/services/upload-queue.ts` (`UploadQueue`) — queue draining,
  duplicate detection and per-item error capture;
* `src/services/export-formats.ts` (`flashcardsToAnki`);
* `src/services/dom-extractor.ts` (`extractChatHistory`,
  `extractArtifactsList`) — failure semantics of the DOM extraction layer.

Strings are modelled as `List Char`; JavaScript's `-1` sentinel of
`String.lastIndexOf` is kept as an `Int`.  The `while` loop of `splitText`
is modelled with explicit fuel (the loop advances `start` by at least one
per iteration, so `text.length` fuel always suffices — that sufficiency is
itself one of the claims).
-/

set_option linter.unusedVariables false

namespace NLM

/-! ## Text splitter (`src/lib/text-splitter.ts`)

`splitText` works on JavaScript strings via `length`, `substring`,
`lastIndexOf`, `Math.max` and `Math.min`.  We embed the text as `List Char`.
-/

/-- JS `text.substring(a, b)` restricted to the way `splitText` uses it
(`a ≤ b ≤ text.length` on every call site, so the clamping/argument-swapping
of the generic JS method never triggers): the characters at positions
`[a, b)`. -/
def substring (t : List Char) (a b : Nat) : List Char :=
  (t.drop a).take (b - a)

/-- JS `s.lastIndexOf(pat)`: the greatest index at which `pat` occurs in
`s`, or `-1` when it occurs nowhere. -/
def jsLastIndexOf (pat s : List Char) : Int :=
  match (((List.range (s.length + 1)).filter
      (fun i => pat.isPrefixOf (s.drop i))).getLast?) with
  | some i => (i : Int)
  | none => -1

/-- A chunk produced by the splitter: the slice text, its running index and
its `[start, end)` span in the original text. -/
structure Chunk where
  text : List Char
  index : Nat
  start : Nat
  «end» : Nat
  deriving DecidableEq

/-- The source's `'\n\n'` — the paragraph-break pattern preferred by the splitter. -/
def paraPat : List Char := ['\n', '\n']

/-- The source's `'. '` — the sentence-break pattern. -/
def sentPat : List Char := ['.', ' ']

/-- The source's `' '` — the word-break pattern. -/
def spacePat : List Char := [' ']

/-- The source's `Math.max(start, end - 200)` — the left edge of the break-point search
window (`end` is the raw cut `start + chunkSize`). -/
def searchStartOf (chunkSize : Nat) (t : List Char) (start : Nat) : Nat :=
  max start (start + chunkSize - 200)

/-- The source's `Math.min(text.length, end + 200)` — the right edge of the search
window. -/
def searchEndOf (chunkSize : Nat) (t : List Char) (start : Nat) : Nat :=
  min t.length (start + chunkSize + 200)

/-- The ±200-character search window around the cut point `start + S`,
exactly as `splitText` builds it (`text.substring(searchStart, searchEnd)`). -/
def searchWindow (chunkSize : Nat) (t : List Char) (start : Nat) : List Char :=
  substring t (searchStartOf chunkSize t start) (searchEndOf chunkSize t start)

/-- The `breakPoint` chain of `splitText`: last paragraph break in the
window, else last sentence break, else last space (`-1` if none found). -/
def breakPointOf (chunkSize : Nat) (t : List Char) (start : Nat) : Int :=
  if jsLastIndexOf paraPat (searchWindow chunkSize t start) = -1 then
    if jsLastIndexOf sentPat (searchWindow chunkSize t start) = -1 then
      jsLastIndexOf spacePat (searchWindow chunkSize t start)
    else jsLastIndexOf sentPat (searchWindow chunkSize t start)
  else jsLastIndexOf paraPat (searchWindow chunkSize t start)

/-- One loop iteration's computation of `end` in `TextSplitter.splitText`:
cut at `end = start + chunkSize`; when `end < text.length` search the ±200
window for a paragraph break, then a sentence break, then a space, and if
one is found move the cut just past it (`+2` skips a `'\n\n'`, `+1` a `'.'`
or a space, reproducing the source's
`breakPoint === searchText.lastIndexOf('\n\n') ? 2 : 1` ternary); when
`end >= text.length` the chunk ends at `text.length`. -/
def computeEnd (chunkSize : Nat) (t : List Char) (start : Nat) : Nat :=
  if start + chunkSize < t.length then
    if breakPointOf chunkSize t start = -1 then start + chunkSize
    else
      searchStartOf chunkSize t start + (breakPointOf chunkSize t start).toNat +
        (if breakPointOf chunkSize t start =
            jsLastIndexOf paraPat (searchWindow chunkSize t start) then 2 else 1)
  else t.length

/-- The `while (start < text.length)` loop of `splitText`, with explicit
fuel.  Each iteration emits the chunk `[start, computeEnd …)` and advances
`start` to `max (start + 1) (end - chunkOverlap)` exactly as the source
does; `none` means the fuel ran out before the loop condition failed. -/
def splitTextAux (chunkSize chunkOverlap : Nat) (t : List Char) :
    Nat → Nat → Nat → Option (List Chunk)
  | 0, start, _ => if start < t.length then none else some []
  | fuel + 1, start, index =>
    if start < t.length then
      (splitTextAux chunkSize chunkOverlap t fuel
          (max (start + 1) (computeEnd chunkSize t start - chunkOverlap))
          (index + 1)).map
        (fun rest =>
          { text := substring t start (computeEnd chunkSize t start),
            index := index, start := start,
            «end» := computeEnd chunkSize t start } :: rest)
    else some []

/-- The source's `TextSplitter.splitText`: a text no longer than `chunkSize` is returned
whole as a single chunk; otherwise the loop runs (with `t.length` fuel,
which always suffices, see `splitTextAux_isSome_of_fuel`). -/
def splitText (chunkSize chunkOverlap : Nat) (t : List Char) : List Chunk :=
  if t.length ≤ chunkSize then
    [{ text := t, index := 0, start := 0, «end» := t.length }]
  else
    (splitTextAux chunkSize chunkOverlap t t.length 0 0).getD []

/-- Concatenation of the chunks' raw spans ignoring the overlap regions:
the first chunk's text, then each later chunk's text with the part that
re-covers the previous chunk's span dropped. -/
def reconstruct : List Chunk → List Char
  | [] => []
  | [c] => c.text
  | c :: c' :: rest => c.text ++ (reconstruct (c' :: rest)).drop (c.«end» - c'.start)

example : splitText 10 2 "hello".toList =
    [{ text := "hello".toList, index := 0, start := 0, «end» := 5 }] := by decide

/-! ### Facts about `jsLastIndexOf` -/

theorem getLast?_ne_none {α : Type} {l : List α} (h : l ≠ []) : l.getLast? ≠ none := by
  cases l with
  | nil => exact absurd rfl h
  | cons a t => simp [List.getLast?_eq_getLast]

/-- A non-`-1` result of `jsLastIndexOf` is a genuine occurrence: it is a
position not past the end of `s` at which `pat` is a prefix of the rest. -/
theorem jsLastIndexOf_spec {pat s : List Char} (h : jsLastIndexOf pat s ≠ -1) :
    (jsLastIndexOf pat s).toNat ≤ s.length ∧
      pat <+: s.drop (jsLastIndexOf pat s).toNat := by
  unfold jsLastIndexOf at *
  set l := ((List.range (s.length + 1)).filter
    (fun i => pat.isPrefixOf (s.drop i))) with hl
  cases hg : l.getLast? with
  | none => rw [hg] at h; exact absurd rfl h
  | some i =>
    have hmem : i ∈ l := List.mem_of_mem_getLast? hg
    rw [hl, List.mem_filter, List.mem_range] at hmem
    refine ⟨by simpa using Nat.lt_succ_iff.mp hmem.1, ?_⟩
    simpa using List.isPrefixOf_iff_prefix.mp hmem.2

/-- If the single-character pattern `[c]` actually occurs in `s`, the JS
`lastIndexOf` does not return `-1`. -/
theorem jsLastIndexOf_single_ne_neg_one {c : Char} {s : List Char} (h : c ∈ s) :
    jsLastIndexOf [c] s ≠ -1 := by
  obtain ⟨n, hn, hg⟩ := List.mem_iff_getElem.mp h
  have hpref : [c].isPrefixOf (s.drop n) = true := by
    rw [List.isPrefixOf_iff_prefix]
    refine ⟨s.drop (n + 1), ?_⟩
    rw [← hg]
    exact (List.drop_eq_getElem_cons hn).symm
  have hne : ((List.range (s.length + 1)).filter
      (fun i => [c].isPrefixOf (s.drop i))) ≠ [] := by
    intro hnil
    have hmem : n ∈ ((List.range (s.length + 1)).filter
        (fun i => [c].isPrefixOf (s.drop i))) :=
      List.mem_filter.mpr ⟨List.mem_range.mpr (by omega), hpref⟩
    rw [hnil] at hmem
    simp at hmem
  unfold jsLastIndexOf
  cases hg2 : ((List.range (s.length + 1)).filter
      (fun i => [c].isPrefixOf (s.drop i))).getLast? with
  | none => exact absurd hg2 (getLast?_ne_none hne)
  | some i => simp

/-- A pattern starting with a character other than `a` never occurs in a
replicate of `a`. -/
theorem jsLastIndexOf_replicate_eq_neg_one {c a : Char} {rest : List Char}
    (hca : c ≠ a) (n : Nat) :
    jsLastIndexOf (c :: rest) (List.replicate n a) = -1 := by
  unfold jsLastIndexOf
  have hfilter : ((List.range ((List.replicate n a).length + 1)).filter
      (fun i => (c :: rest).isPrefixOf ((List.replicate n a).drop i))) = [] := by
    apply List.filter_eq_nil_iff.mpr
    intro i _
    rw [Bool.not_eq_true, ← Bool.not_eq_true, List.isPrefixOf_iff_prefix]
    rintro ⟨tail, htail⟩
    rw [List.drop_replicate] at htail
    cases hm : n - i with
    | zero => rw [hm] at htail; simp at htail
    | succ m =>
      rw [hm, List.replicate_succ] at htail
      injection htail with h1 _
      exact hca h1
  rw [hfilter]
  simp

/-! ### Facts about `substring` -/

theorem substring_length {t : List Char} {a b : Nat} (hb : b ≤ t.length) :
    (substring t a b).length = b - a := by
  simp [substring]
  omega

theorem substring_getElem? {t : List Char} {a b k : Nat} (hk : k < b - a) :
    (substring t a b)[k]? = t[a + k]? := by
  unfold substring
  rw [List.getElem?_take, if_pos hk, List.getElem?_drop]

theorem substring_getLast? {t : List Char} {a b : Nat} (ha : a < b)
    (hb : b ≤ t.length) : (substring t a b).getLast? = t[b - 1]? := by
  rw [List.getLast?_eq_getElem?, substring_length hb, substring_getElem? (by omega)]
  congr 1
  omega

theorem substring_full (t : List Char) : substring t 0 t.length = t := by
  simp [substring]

/-- The span-glueing identity behind `reconstruct`: a chunk's text followed
by the rest of the list is the rest of the list from the chunk's start. -/
theorem substring_append_drop {t : List Char} {a b : Nat} (hab : a ≤ b)
    (hb : b ≤ t.length) : substring t a b ++ t.drop b = t.drop a := by
  unfold substring
  have h1 : t.drop b = (t.drop a).drop (b - a) := by
    rw [List.drop_drop]
    congr 1
    omega
  rw [h1, List.take_append_drop]

/-! ### Per-iteration facts about `computeEnd` -/

theorem jsLastIndexOf_add_length_le {pat w : List Char}
    (hbp : jsLastIndexOf pat w ≠ -1) :
    (jsLastIndexOf pat w).toNat + pat.length ≤ w.length := by
  obtain ⟨hle, hpre⟩ := jsLastIndexOf_spec hbp
  have hl := hpre.length_le
  rw [List.length_drop] at hl
  omega

theorem searchWindow_length (S : Nat) (t : List Char) (start : Nat) :
    (searchWindow S t start).length =
      searchEndOf S t start - searchStartOf S t start :=
  substring_length (min_le_left _ _)

/-- Every chunk cut lies inside the text, overshoots the nominal cut point
by at most the 200-character search slack, and (for a positive chunk size)
advances at least one character past `start`. -/
theorem computeEnd_bounds (S : Nat) (t : List Char) (start : Nat)
    (h : start < t.length) :
    computeEnd S t start ≤ t.length ∧
      computeEnd S t start ≤ start + S + 200 ∧
      (1 ≤ S → start + 1 ≤ computeEnd S t start) := by
  have hss : start ≤ searchStartOf S t start := le_max_left _ _
  have hse1 : searchEndOf S t start ≤ t.length := min_le_left _ _
  have hse2 : searchEndOf S t start ≤ start + S + 200 := min_le_right _ _
  have hwl := searchWindow_length S t start
  unfold computeEnd
  by_cases hcut : start + S < t.length
  · rw [if_pos hcut]
    by_cases hbp : breakPointOf S t start = -1
    · rw [if_pos hbp]
      omega
    · rw [if_neg hbp]
      unfold breakPointOf at hbp ⊢
      by_cases h0 : jsLastIndexOf paraPat (searchWindow S t start) = -1
      · rw [if_pos h0] at hbp ⊢
        by_cases h1 : jsLastIndexOf sentPat (searchWindow S t start) = -1
        · rw [if_pos h1] at hbp ⊢
          have hadd := jsLastIndexOf_add_length_le hbp
          rw [show spacePat.length = 1 from rfl] at hadd
          rw [if_neg (by rw [h0]; exact hbp)]
          omega
        · rw [if_neg h1] at hbp ⊢
          have hadd := jsLastIndexOf_add_length_le hbp
          rw [show sentPat.length = 2 from rfl] at hadd
          rw [if_neg (by rw [h0]; exact hbp)]
          omega
      · rw [if_neg h0] at hbp ⊢
        have hadd := jsLastIndexOf_add_length_le hbp
        rw [show paraPat.length = 2 from rfl] at hadd
        rw [if_pos rfl]
        omega
  · rw [if_neg hcut]
    omega

/-- When the cut is not final and the search window contains a space, the
chunk produced by `computeEnd` ends in a newline, a period, or a space
(the splitter never cuts mid-word in that situation). -/
theorem computeEnd_boundary {S : Nat} {t : List Char} {start : Nat}
    (hcut : start + S < t.length) (hsp : ' ' ∈ searchWindow S t start) :
    ∃ ch, t[computeEnd S t start - 1]? = some ch ∧
      (ch = '\n' ∨ ch = '.' ∨ ch = ' ') := by
  have hse1 : searchEndOf S t start ≤ t.length := min_le_left _ _
  have hwl := searchWindow_length S t start
  unfold computeEnd
  rw [if_pos hcut]
  by_cases h0 : jsLastIndexOf paraPat (searchWindow S t start) = -1
  · by_cases h1 : jsLastIndexOf sentPat (searchWindow S t start) = -1
    · -- space break (it exists because the window contains a space)
      have hbp : jsLastIndexOf spacePat (searchWindow S t start) ≠ -1 :=
        jsLastIndexOf_single_ne_neg_one hsp
      have hrw : breakPointOf S t start =
          jsLastIndexOf spacePat (searchWindow S t start) := by
        unfold breakPointOf
        rw [if_pos h0, if_pos h1]
      rw [hrw]
      rw [if_neg hbp, if_neg (by rw [h0]; exact hbp)]
      set i := (jsLastIndexOf spacePat (searchWindow S t start)).toNat with hi
      have hadd := jsLastIndexOf_add_length_le hbp
      rw [show spacePat.length = 1 from rfl] at hadd
      obtain ⟨hle, hpre⟩ := jsLastIndexOf_spec hbp
      obtain ⟨tl, htl⟩ := hpre
      refine ⟨' ', ?_, Or.inr (Or.inr rfl)⟩
      have hw : (searchWindow S t start)[i]? = some ' ' := by
        have : ((searchWindow S t start).drop i)[0]? = some ' ' := by
          rw [← htl]
          simp [spacePat]
        rw [List.getElem?_drop] at this
        simpa using this
      rw [searchWindow] at hw
      rw [substring_getElem? (by omega)] at hw
      have : searchStartOf S t start + i + 1 - 1 = searchStartOf S t start + i := by
        omega
      rw [this]
      exact hw
    · -- sentence break
      have hbp : jsLastIndexOf sentPat (searchWindow S t start) ≠ -1 := h1
      have hrw : breakPointOf S t start =
          jsLastIndexOf sentPat (searchWindow S t start) := by
        unfold breakPointOf
        rw [if_pos h0, if_neg h1]
      rw [hrw]
      rw [if_neg hbp, if_neg (by rw [h0]; exact hbp)]
      set i := (jsLastIndexOf sentPat (searchWindow S t start)).toNat with hi
      have hadd := jsLastIndexOf_add_length_le hbp
      rw [show sentPat.length = 2 from rfl] at hadd
      obtain ⟨hle, hpre⟩ := jsLastIndexOf_spec hbp
      obtain ⟨tl, htl⟩ := hpre
      refine ⟨'.', ?_, Or.inr (Or.inl rfl)⟩
      have hw : (searchWindow S t start)[i]? = some '.' := by
        have : ((searchWindow S t start).drop i)[0]? = some '.' := by
          rw [← htl]
          simp [sentPat]
        rw [List.getElem?_drop] at this
        simpa using this
      rw [searchWindow] at hw
      rw [substring_getElem? (by omega)] at hw
      have : searchStartOf S t start + i + 1 - 1 = searchStartOf S t start + i := by
        omega
      rw [this]
      exact hw
  · -- paragraph break
    have hbp : jsLastIndexOf paraPat (searchWindow S t start) ≠ -1 := h0
    have hrw : breakPointOf S t start =
        jsLastIndexOf paraPat (searchWindow S t start) := by
      unfold breakPointOf
      rw [if_neg h0]
    rw [hrw]
    rw [if_neg hbp, if_pos rfl]
    set i := (jsLastIndexOf paraPat (searchWindow S t start)).toNat with hi
    have hadd := jsLastIndexOf_add_length_le hbp
    rw [show paraPat.length = 2 from rfl] at hadd
    obtain ⟨hle, hpre⟩ := jsLastIndexOf_spec hbp
    obtain ⟨tl, htl⟩ := hpre
    refine ⟨'\n', ?_, Or.inl rfl⟩
    have hw : (searchWindow S t start)[i + 1]? = some '\n' := by
      have : ((searchWindow S t start).drop i)[1]? = some '\n' := by
        rw [← htl]
        simp [paraPat]
      rw [List.getElem?_drop] at this
      simpa using this
    rw [searchWindow] at hw
    rw [substring_getElem? (by omega)] at hw
    have : searchStartOf S t start + i + 2 - 1 =
        searchStartOf S t start + (i + 1) := by
      omega
    rw [this]
    exact hw

/-! ### The splitter loop: invariants and termination -/

theorem splitTextAux_of_ge {S ov : Nat} {t : List Char} {start : Nat}
    (h : ¬ start < t.length) (fuel index : Nat) :
    splitTextAux S ov t fuel start index = some [] := by
  cases fuel with
  | zero => simp [splitTextAux, h]
  | succ f => simp [splitTextAux, h]

/-- Fuel `t.length - start` always suffices: every loop iteration advances
`start` to `max (start + 1) (end - overlap) ≥ start + 1`. -/
theorem splitTextAux_isSome_of_fuel (S ov : Nat) (t : List Char) :
    ∀ fuel start index, t.length - start ≤ fuel →
      (splitTextAux S ov t fuel start index).isSome = true := by
  intro fuel
  induction fuel with
  | zero =>
    intro start index hfuel
    have : ¬ start < t.length := by omega
    simp [splitTextAux, this]
  | succ f ih =>
    intro start index hfuel
    by_cases h : start < t.length
    · simp only [splitTextAux, if_pos h]
      have hrec := ih (max (start + 1) (computeEnd S t start - ov)) (index + 1) (by
        have h1 : start + 1 ≤ max (start + 1) (computeEnd S t start - ov) :=
          le_max_left _ _
        omega)
      cases h2 : splitTextAux S ov t f
          (max (start + 1) (computeEnd S t start - ov)) (index + 1) with
      | none => rw [h2] at hrec; simp at hrec
      | some cs => simp [h2]
    · simp [splitTextAux, h]

/-- All per-chunk properties of a chunk produced by the splitter loop
(for chunk size `S`): the text is the substring at the recorded span, the
span is nonempty, ends inside the text, overshoots the nominal cut by at
most 200 characters, and — when this is not the final cut and the search
window holds a space — the chunk ends at a soft boundary. -/
def ChunkOk (S : Nat) (t : List Char) (c : Chunk) : Prop :=
  c.text = substring t c.start c.«end» ∧
  c.start < c.«end» ∧
  c.«end» ≤ t.length ∧
  c.«end» ≤ c.start + S + 200 ∧
  (c.start + S < t.length → ' ' ∈ searchWindow S t c.start →
    ∃ ch, c.text.getLast? = some ch ∧ (ch = '\n' ∨ ch = '.' ∨ ch = ' '))

/-- Master invariant of the splitter loop: with sufficient fuel the loop
completes, its first chunk starts at `start`, dropping overlaps and
concatenating reconstructs the tail of the text, and every chunk satisfies
`ChunkOk`. -/
theorem splitTextAux_spec (S ov : Nat) (hS : 1 ≤ S) (t : List Char) :
    ∀ fuel start index, start < t.length → t.length - start ≤ fuel →
    ∃ cs, splitTextAux S ov t fuel start index = some cs ∧
      (∃ c0 cs', cs = c0 :: cs' ∧ c0.start = start) ∧
      reconstruct cs = t.drop start ∧
      ∀ c ∈ cs, ChunkOk S t c := by
  intro fuel
  induction fuel with
  | zero => intro start index h hfuel; omega
  | succ f ih =>
    intro start index h hfuel
    obtain ⟨hb1, hb2, hb3⟩ := computeEnd_bounds S t start h
    have he1 : start + 1 ≤ computeEnd S t start := hb3 hS
    have hok : ChunkOk S t
        { text := substring t start (computeEnd S t start), index := index,
          start := start, «end» := computeEnd S t start } := by
      refine ⟨rfl, ?_, ?_, ?_, ?_⟩
      · show start < computeEnd S t start
        omega
      · exact hb1
      · exact hb2
      · intro hcut hsp
        obtain ⟨ch, hch, hcases⟩ := computeEnd_boundary hcut hsp
        refine ⟨ch, ?_, hcases⟩
        show (substring t start (computeEnd S t start)).getLast? = some ch
        rw [substring_getLast? (by omega) hb1]
        exact hch
    by_cases hlt : max (start + 1) (computeEnd S t start - ov) < t.length
    · obtain ⟨cs', heq', ⟨c0, cs'', hcons, hc0⟩, hrec', hallok⟩ :=
        ih (max (start + 1) (computeEnd S t start - ov)) (index + 1) hlt
          (by have h1 : start + 1 ≤ max (start + 1) (computeEnd S t start - ov) :=
                le_max_left _ _
              omega)
      refine ⟨_, by simp only [splitTextAux, if_pos h]; rw [heq']; rfl, ?_, ?_, ?_⟩
      · exact ⟨_, cs', rfl, rfl⟩
      · rw [hcons]
        show substring t start (computeEnd S t start) ++
          (reconstruct (c0 :: cs'')).drop (computeEnd S t start - c0.start) =
          t.drop start
        rw [← hcons, hrec', hc0]
        have hse : max (start + 1) (computeEnd S t start - ov) ≤
            computeEnd S t start :=
          max_le (by omega) (by omega)
        rw [List.drop_drop]
        have hsum : max (start + 1) (computeEnd S t start - ov) +
            (computeEnd S t start - max (start + 1) (computeEnd S t start - ov)) =
            computeEnd S t start := by
          omega
        rw [hsum]
        exact substring_append_drop (by omega) hb1
      · intro c hc
        rcases List.mem_cons.mp hc with hc | hc
        · rw [hc]; exact hok
        · exact hallok c hc
    · refine ⟨_, by
        simp only [splitTextAux, if_pos h]
        rw [splitTextAux_of_ge hlt]
        rfl, ?_, ?_, ?_⟩
      · exact ⟨_, [], rfl, rfl⟩
      · have hend : computeEnd S t start = t.length := by
          rcases le_max_iff.mp (le_of_not_lt hlt) with hm | hm <;> omega
        show substring t start (computeEnd S t start) = t.drop start
        rw [hend, ← substring_append_drop (le_of_lt h) (le_refl t.length),
          List.drop_length, List.append_nil]
      · intro c hc
        rcases List.mem_cons.mp hc with hc | hc
        · rw [hc]; exact hok
        · simp at hc

/-- With more than a chunk's worth of text, `splitText` is the loop run
with fuel `t.length` (which suffices). -/
theorem splitText_eq_of_lt {S ov : Nat} {t : List Char} (hS : 1 ≤ S)
    (hT : S < t.length) :
    splitTextAux S ov t t.length 0 0 = some (splitText S ov t) := by
  obtain ⟨cs, heq, -, -, -⟩ :=
    splitTextAux_spec S ov hS t t.length 0 0 (by omega) (by omega)
  rw [splitText, if_neg (by omega), heq]
  rfl

/-! ### Claims C4 and C5 -/

/-- Claim C4, counterexample.: The claim quantifies over *every* chunk size
`S` with `|T| > S`, including `S = 0`.  For `S = 0` and `T = "a"` (no soft
break point in the window) the loop emits the empty chunk `[0, 0)` and then
advances `start` past position `0`, so the spans do not cover the text and
concatenating the raw spans does not reconstruct `T`. -/
theorem c4_counterexample :
    (0 : Nat) < "a".toList.length ∧
      ¬ reconstruct (splitText 0 0 "a".toList) = "a".toList := by
  constructor
  · decide
  · decide

/-- Claim C4 (amended: chunk size at least 1).: For every text `T` and chunk
size `S` with `1 ≤ S < |T|` and any overlap: every chunk's text is the
substring of `T` at its recorded span; concatenating the raw spans while
dropping each chunk's overlap with its predecessor reconstructs `T`
exactly; every chunk is at most `S + 400` characters long (the splitter in
fact guarantees `S + 200`); and a non-final chunk whose ±200 search window
contains a space always ends in a newline, a period, or a space — its
boundary never splits a word. -/
theorem c4_splitText_spec (t : List Char) (S ov : Nat) (hS : 1 ≤ S)
    (hT : S < t.length) :
    (∀ c ∈ splitText S ov t, c.text = substring t c.start c.«end») ∧
      reconstruct (splitText S ov t) = t ∧
      (∀ c ∈ splitText S ov t, c.text.length ≤ S + 400) ∧
      (∀ c ∈ splitText S ov t,
        c.start + S < t.length → ' ' ∈ searchWindow S t c.start →
          ∃ ch, c.text.getLast? = some ch ∧
            (ch = '\n' ∨ ch = '.' ∨ ch = ' ')) := by
  obtain ⟨cs, heq, hhead, hrec, hok⟩ :=
    splitTextAux_spec S ov hS t t.length 0 0 (by omega) (by omega)
  have hsplit : splitText S ov t = cs := by
    rw [splitText, if_neg (by omega), heq]
    rfl
  rw [hsplit]
  refine ⟨fun c hc => (hok c hc).1, by rw [hrec]; rfl, ?_, ?_⟩
  · intro c hc
    obtain ⟨htext, hlt, hle, hbound, _⟩ := hok c hc
    have : c.text.length ≤ c.«end» - c.start := by
      rw [htext, substring]
      exact List.length_take_le _ _
    omega
  · intro c hc
    exact (hok c hc).2.2.2.2

/-- Claim C5.: `splitText` terminates for every input text, every chunk size
`≥ 1` and every overlap (overlap is a `Nat`, so `overlap ≥ 0` holds by
typing), including when the overlap is at least the chunk size: in the
fueled model of the `while` loop, `t.length` fuel always suffices because
`start` advances to `max (start + 1) (end - overlap) ≥ start + 1` every
iteration. -/
theorem c5_splitText_terminates (chunkSize chunkOverlap : Nat)
    (t : List Char) (hS : 1 ≤ chunkSize) :
    (splitTextAux chunkSize chunkOverlap t t.length 0 0).isSome = true :=
  splitTextAux_isSome_of_fuel chunkSize chunkOverlap t t.length 0 0 (by omega)

/-- Witness for `c4_splitText_spec` at the concrete text
`"aaaa bbbb cccc"`, chunk size `5`, overlap `2`. -/
theorem c4_witness :
    (1 ≤ 5 ∧ 5 < "aaaa bbbb cccc".toList.length) ∧
      ((∀ c ∈ splitText 5 2 "aaaa bbbb cccc".toList,
          c.text = substring "aaaa bbbb cccc".toList c.start c.«end») ∧
        reconstruct (splitText 5 2 "aaaa bbbb cccc".toList) =
          "aaaa bbbb cccc".toList ∧
        (∀ c ∈ splitText 5 2 "aaaa bbbb cccc".toList,
          c.text.length ≤ 5 + 400) ∧
        (∀ c ∈ splitText 5 2 "aaaa bbbb cccc".toList,
          c.start + 5 < "aaaa bbbb cccc".toList.length →
            ' ' ∈ searchWindow 5 "aaaa bbbb cccc".toList c.start →
              ∃ ch, c.text.getLast? = some ch ∧
                (ch = '\n' ∨ ch = '.' ∨ ch = ' '))) :=
  ⟨⟨by decide, by decide⟩,
    c4_splitText_spec "aaaa bbbb cccc".toList 5 2 (by decide) (by decide)⟩

/-- Witness for `c5_splitText_terminates` at text `"ab"`, chunk size `1`,
overlap `5` (an overlap larger than the chunk size). -/
theorem c5_witness :
    1 ≤ 1 ∧ (splitTextAux 1 5 "ab".toList "ab".toList.length 0 0).isSome = true :=
  ⟨by decide, c5_splitText_terminates 1 5 "ab".toList (by decide)⟩

/-! ### Claim C2: the 500,000-character note scenario

The spec's scenario A expects a 500,000-character note with chunk size
225,000 and overlap 1,000 to yield exactly 3 chunks.  On the source's loop
this is false: after the chunk that ends at position 500,000 the loop sets
`start = end - overlap = 499,000 < 500,000` and keeps running, emitting one
spurious tail chunk per character of the overlap region.  We prove the
count is 1,003 on the concrete 500,000-character text `'a' * 500000`. -/

theorem substring_replicate (c : Char) (n a b : Nat) :
    substring (List.replicate n c) a b =
      List.replicate (min (b - a) (n - a)) c := by
  simp [substring, List.drop_replicate, List.take_replicate]

theorem breakPointOf_replicate (S n start : Nat) :
    breakPointOf S (List.replicate n 'a') start = -1 := by
  unfold breakPointOf searchWindow
  rw [substring_replicate]
  rw [show paraPat = '\n' :: ['\n'] from rfl]
  rw [show sentPat = '.' :: [' '] from rfl]
  rw [show spacePat = ' ' :: [] from rfl]
  rw [jsLastIndexOf_replicate_eq_neg_one (by decide)]
  rw [jsLastIndexOf_replicate_eq_neg_one (by decide)]
  rw [jsLastIndexOf_replicate_eq_neg_one (by decide)]
  simp

theorem computeEnd_replicate (S n start : Nat) :
    computeEnd S (List.replicate n 'a') start =
      if start + S < n then start + S else n := by
  unfold computeEnd
  rw [breakPointOf_replicate]
  by_cases h : start + S < n
  · rw [if_pos (by simpa using h), if_pos rfl, if_pos h]
  · rw [if_neg (by simpa using h), if_neg h, List.length_replicate]

/-- One unfolding step of the loop, with every computed value supplied as
an explicit equation (convenient for running the loop on literals). -/
theorem splitTextAux_step (S ov : Nat) (t : List Char)
    (fuel fuel' start start' index index' e : Nat)
    (h : start < t.length) (hfuel : fuel = fuel' + 1)
    (he : computeEnd S t start = e)
    (hstart : max (start + 1) (e - ov) = start')
    (hindex : index + 1 = index') :
    splitTextAux S ov t fuel start index =
      (splitTextAux S ov t fuel' start' index').map
        (fun rest => ⟨substring t start e, index, start, e⟩ :: rest) := by
  subst hfuel he hstart hindex
  simp only [splitTextAux, if_pos h]

/-- Counting the spurious tail chunks: once `start` both lies within
`overlap` of the end (`n ≤ start + 1 + ov`) and cuts past the end
(`n ≤ start + S`), each iteration emits a chunk ending at `n` and advances
`start` by exactly one, so the loop emits one chunk per remaining
character. -/
theorem splitTextAux_tail_length (n S ov : Nat) :
    ∀ fuel start index, start < n → n ≤ start + S → n ≤ start + 1 + ov →
      n - start ≤ fuel →
      ∃ cs, splitTextAux S ov (List.replicate n 'a') fuel start index = some cs ∧
        cs.length = n - start := by
  intro fuel
  induction fuel with
  | zero => intro start index h1 h2 h3 h4; omega
  | succ f ih =>
    intro start index h1 h2 h3 h4
    have hlen : (List.replicate n 'a').length = n := List.length_replicate ..
    have hstart : start < (List.replicate n 'a').length := by omega
    have he : computeEnd S (List.replicate n 'a') start = n := by
      rw [computeEnd_replicate, if_neg (by omega)]
    have hmax : max (start + 1) (computeEnd S (List.replicate n 'a') start - ov) =
        start + 1 := by
      rw [he]
      exact max_eq_left (by omega)
    by_cases h5 : start + 1 < n
    · obtain ⟨cs, heq, hcslen⟩ :=
        ih (start + 1) (index + 1) h5 (by omega) (by omega) (by omega)
      refine ⟨(⟨substring (List.replicate n 'a') start n, index, start, n⟩ :
          Chunk) :: cs, ?_, ?_⟩
      · simp only [splitTextAux, if_pos hstart]
        rw [hmax, heq, he]
        rfl
      · simp only [List.length_cons, hcslen]
        omega
    · refine ⟨[(⟨substring (List.replicate n 'a') start n, index, start, n⟩ :
          Chunk)], ?_, ?_⟩
      · simp only [splitTextAux, if_pos hstart]
        rw [hmax, splitTextAux_of_ge (by omega), he]
        rfl
      · simp only [List.length_cons, List.length_nil]
        omega

/-- Claim C2 (code bug).: Splitting a 500,000-character note with chunk size
225,000 and overlap 1,000 yields 1,003 chunks, not the 3 the specification
scenario expects: the three genuine chunks are followed by 1,000 spurious
tail chunks `[499000, 500000), [499001, 500000), …, [499999, 500000)`
because the loop re-enters after the final chunk (`start` falls back by
the overlap but the loop only stops at `start ≥ text.length`).  The upload
queue would correspondingly submit parts titled "(Part i/1003)". -/
theorem c2_chunk_count_bug :
    (splitText 225000 1000 (List.replicate 500000 'a')).length = 1003 := by
  have hlen : (List.replicate 500000 'a').length = 500000 :=
    List.length_replicate ..
  rw [splitText, if_neg (by omega)]
  rw [hlen]
  rw [splitTextAux_step 225000 1000 (List.replicate 500000 'a')
    500000 499999 0 224000 0 1 225000
    (by omega) (by norm_num) (by rw [computeEnd_replicate]; norm_num)
    (by decide) rfl]
  rw [splitTextAux_step 225000 1000 (List.replicate 500000 'a')
    499999 499998 224000 448000 1 2 449000
    (by omega) (by norm_num) (by rw [computeEnd_replicate]; norm_num)
    (by decide) rfl]
  rw [splitTextAux_step 225000 1000 (List.replicate 500000 'a')
    499998 499997 448000 499000 2 3 500000
    (by omega) (by norm_num) (by rw [computeEnd_replicate]; norm_num)
    (by decide) rfl]
  obtain ⟨cs, heq, hcslen⟩ :=
    splitTextAux_tail_length 500000 225000 1000 499997 499000 3
      (by omega) (by omega) (by omega) (by omega)
  rw [heq]
  simp only [Option.map_some', Option.getD_some, List.length_cons, hcslen]

/-! ## RPC inline error-code handling
(`NotebookLMService.addSource` / `addTextSource`,
`src/services/notebooklm-api.ts`)

`addSource` checks the raw RPC response text for the inline marker
`["e",4,null,null,<code>]`; codes on the `normalErrorCodes` allow-list mean
"accepted, processing asynchronously" and the call returns normally, any
other code makes it `throw new Error('RPC returned error code: <code>')`.
`addTextSource` performs the same scan but only `console.warn`s on an
unexpected code — it never throws.  We embed the response-check logic as
pure functions from the response text to `Except` (the `Except.error`
value is the thrown message). -/

instance {ε α : Type} [DecidableEq ε] [DecidableEq α] :
    DecidableEq (Except ε α) := fun x y =>
  match x, y with
  | .ok a, .ok b =>
    if h : a = b then .isTrue (by rw [h]) else .isFalse fun hc => h (by cases hc; rfl)
  | .error a, .error b =>
    if h : a = b then .isTrue (by rw [h]) else .isFalse fun hc => h (by cases hc; rfl)
  | .ok _, .error _ => .isFalse fun hc => Except.noConfusion hc
  | .error _, .ok _ => .isFalse fun hc => Except.noConfusion hc

/-- JS `s.includes(pat)`. -/
def jsIncludes (pat s : List Char) : Bool :=
  s.tails.any (fun suf => pat.isPrefixOf suf)

/-- Try to match, at the very start of `s`: the literal `pre`, then a
nonempty maximal digit run (the regex capture `(\d+)`), then — when
`needBracket` — a closing `']'`.  Returns the captured digits. -/
def matchCodeAt (pre : List Char) (needBracket : Bool) (s : List Char) :
    Option (List Char) :=
  if pre.isPrefixOf s then
    let rest := s.drop pre.length
    let code := rest.takeWhile (fun c => c.isDigit)
    if code.isEmpty then none
    else if needBracket then
      match (rest.drop code.length).head? with
      | some c => if c = ']' then some code else none
      | none => none
    else some code
  else none

/-- Leftmost-position regex-style scan for `pre` + digits (+ `']'`):
the model of `response.match(/…(\d+)…/)` returning the first capture. -/
def scanCode (pre : List Char) (needBracket : Bool) : List Char → Option (List Char)
  | [] => none
  | c :: rest =>
    match matchCodeAt pre needBracket (c :: rest) with
    | some code => some code
    | none => scanCode pre needBracket rest

/-- The source's `'["e",4'` — the substring whose presence triggers the error-code
check (`response.includes('["e",4')`). -/
def errHead : List Char := "[\"e\",4".toList

/-- The literal part of the marker regex `\["e",4,null,null,(\d+)\]`. -/
def errMarkerPre : List Char := "[\"e\",4,null,null,".toList

/-- The capture of `response.match(/\["e",4,null,null,(\d+)\]/)`. -/
def inlineErrorCode (response : List Char) : Option (List Char) :=
  scanCode errMarkerPre true response

/-- The allow-list used by `addSource` (and by the upload queue's catch
blocks): codes that still mean the source was added. -/
def normalErrorCodes : List (List Char) :=
  ["139", "140", "141", "412", "466", "496", "497", "536", "537", "552",
    "553"].map String.toList

/-- The (shorter) allow-list hard-coded inside `addTextSource` — it lacks
`496` and `497`, but `addTextSource` only logs, so the difference is not
observable in the result. -/
def textNormalErrorCodes : List (List Char) :=
  ["139", "140", "141", "412", "466", "536", "537", "552", "553"].map
    String.toList

/-- The thrown message `RPC returned error code: <code>`. -/
def rpcErrorMessage (code : List Char) : List Char :=
  "RPC returned error code: ".toList ++ code

/-- The response-check logic of `NotebookLMService.addSource` (lines
284–310): on an inline error marker, an allow-listed code returns
normally, any other code throws `RPC returned error code: <code>`. -/
def addSourceCheck (response : List Char) : Except (List Char) Unit :=
  if jsIncludes errHead response then
    match inlineErrorCode response with
    | some errorCode =>
      if errorCode ∈ normalErrorCodes then Except.ok ()
      else Except.error (rpcErrorMessage errorCode)
    | none => Except.ok ()
  else Except.ok ()

/-- The response-check logic of `NotebookLMService.addTextSource` (lines
398–414): the same scan, but an unexpected code only produces a
`console.warn` — both branches fall through to the UUID logging and the
function returns normally. -/
def addTextSourceCheck (response : List Char) : Except (List Char) Unit :=
  if jsIncludes errHead response then
    match inlineErrorCode response with
    | some errorCode =>
      if errorCode ∈ textNormalErrorCodes then
        Except.ok ()
      else
        Except.ok ()
    | none => Except.ok ()
  else Except.ok ()

theorem matchCodeAt_isPrefixOf {pre : List Char} {b : Bool}
    {s code : List Char} (h : matchCodeAt pre b s = some code) :
    pre.isPrefixOf s = true := by
  by_cases hp : pre.isPrefixOf s = true
  · exact hp
  · unfold matchCodeAt at h
    rw [if_neg hp] at h
    exact absurd h (by simp)

/-- A successful marker scan implies `response.includes` of any prefix of
the marker literal succeeds too. -/
theorem jsIncludes_of_scanCode {pre : List Char} {b : Bool}
    {sub : List Char} (hsub : sub <+: pre) :
    ∀ {s code : List Char}, scanCode pre b s = some code →
      jsIncludes sub s = true := by
  intro s
  induction s with
  | nil => intro code h; simp [scanCode] at h
  | cons c rest ih =>
    intro code h
    unfold scanCode at h
    cases hm : matchCodeAt pre b (c :: rest) with
    | some code' =>
      have hpre := List.isPrefixOf_iff_prefix.mp (matchCodeAt_isPrefixOf hm)
      have : sub.isPrefixOf (c :: rest) = true :=
        List.isPrefixOf_iff_prefix.mpr (hsub.trans hpre)
      unfold jsIncludes
      rw [List.tails_cons, List.any_cons, this]
      simp
    | none =>
      rw [hm] at h
      have := ih h
      unfold jsIncludes at this ⊢
      rw [List.tails_cons, List.any_cons, this]
      simp

/-- Claim C1, counterexample.: A raw response carrying the inline marker with
code `999` (not on the allow-list): `addTextSource` completes successfully
anyway — it never raises on an unexpected code (it only `console.warn`s),
contradicting the claim that every add-source operation raises
`UnexpectedRpcError(999)` here. -/
theorem c1_counterexample :
    inlineErrorCode "[[\"e\",4,null,null,999]]".toList = some "999".toList ∧
      "999".toList ∉ normalErrorCodes ∧
      addTextSourceCheck "[[\"e\",4,null,null,999]]".toList = Except.ok () := by
  refine ⟨by decide, by decide, by decide⟩

/-- Claim C1 (amended: the raise-on-unexpected-code behaviour holds for
`addSource` only).: For every raw response whose inline marker scan
yields `code`: `addSource` succeeds iff `code` is on the fixed allow-list
`{139, 140, 141, 412, 466, 496, 497, 536, 537, 552, 553}`, and raises
`RPC returned error code: <code>` otherwise; `addTextSource` always
completes successfully regardless of the code. -/
theorem c1_rpc_error_codes (r code : List Char)
    (h : inlineErrorCode r = some code) :
    (addSourceCheck r = Except.ok () ↔ code ∈ normalErrorCodes) ∧
      (code ∉ normalErrorCodes →
        addSourceCheck r = Except.error (rpcErrorMessage code)) ∧
      addTextSourceCheck r = Except.ok () := by
  have hinc : jsIncludes errHead r = true :=
    jsIncludes_of_scanCode (by decide) h
  refine ⟨?_, ?_, ?_⟩
  · unfold addSourceCheck
    rw [if_pos hinc, h]
    by_cases hmem : code ∈ normalErrorCodes
    · simp [hmem]
    · simp [hmem]
  · intro hmem
    unfold addSourceCheck
    rw [if_pos hinc, h]
    simp [hmem]
  · unfold addTextSourceCheck
    rw [if_pos hinc, h]
    by_cases hmem : code ∈ textNormalErrorCodes <;> simp [hmem]

/-- Witness for `c1_rpc_error_codes` at a response carrying the
allow-listed code `412` (spec scenario C). -/
theorem c1_witness :
    inlineErrorCode "[[\"e\",4,null,null,412]]".toList =
        some "412".toList ∧
      ((addSourceCheck "[[\"e\",4,null,null,412]]".toList = Except.ok () ↔
          "412".toList ∈ normalErrorCodes) ∧
        ("412".toList ∉ normalErrorCodes →
          addSourceCheck "[[\"e\",4,null,null,412]]".toList =
            Except.error (rpcErrorMessage "412".toList)) ∧
        addTextSourceCheck "[[\"e\",4,null,null,412]]".toList =
          Except.ok ()) :=
  ⟨by decide,
    c1_rpc_error_codes "[[\"e\",4,null,null,412]]".toList "412".toList
      (by decide)⟩

/-! ## Token refresh (`NotebookLMService.getTokens`, lines 45–86)

`getTokens` guards the refresh with a module-level boolean
`isRefreshingTokens`.  A caller that finds the flag set sleeps 100 ms
*once*, returns the cached tokens if they appeared, and otherwise falls
through, sets the flag itself and issues its own HTML fetch.  We model two
concurrent callers as a transition system whose atomic steps are the
code blocks between `await` suspension points (JS is single-threaded, so
each such block runs atomically). -/

/-- Program counter of one caller inside `getTokens`. -/
inductive CallerPc
  | entry     -- about to test `isRefreshingTokens`
  | sleeping  -- suspended in `await setTimeout(100)`
  | fetching  -- its token-refresh HTML fetch is in flight
  | finished  -- returned (tokens or thrown error)
  deriving DecidableEq

/-- Shared state for two concurrent `getTokens` callers: the
`isRefreshingTokens` flag, whether `this.tokens` is populated, and both
callers' positions. -/
structure TokenState where
  refreshing : Bool
  tokens : Bool
  pc1 : CallerPc
  pc2 : CallerPc
  deriving DecidableEq

def TokenState.pcOf (s : TokenState) (i : Bool) : CallerPc :=
  if i then s.pc1 else s.pc2

def TokenState.setPc (s : TokenState) (i : Bool) (p : CallerPc) : TokenState :=
  if i then { s with pc1 := p } else { s with pc2 := p }

/-- One atomic step of the `getTokens` code, by either caller `i`:

* `sleep`: the flag is set, so enter the 100 ms sleep;
* `beginRefresh`: the flag is clear, so set it and start the fetch
  (flag write and fetch start are one atomic block in the source);
* `wakeReuse`: wake from the sleep with tokens cached — return them,
  issuing no fetch;
* `wakeRefresh`: wake from the sleep with tokens still absent — fall
  through, set the flag and start a *second* fetch (the source does not
  re-check the flag here);
* `fetchOk` / `fetchFail`: the fetch resolves; the `finally` clears the
  flag, and on success the tokens are cached. -/
inductive TokenStep : TokenState → TokenState → Prop
  | sleep {s : TokenState} (i : Bool) :
      s.pcOf i = .entry → s.refreshing = true →
      TokenStep s (s.setPc i .sleeping)
  | beginRefresh {s : TokenState} (i : Bool) :
      s.pcOf i = .entry → s.refreshing = false →
      TokenStep s { s.setPc i .fetching with refreshing := true }
  | wakeReuse {s : TokenState} (i : Bool) :
      s.pcOf i = .sleeping → s.tokens = true →
      TokenStep s (s.setPc i .finished)
  | wakeRefresh {s : TokenState} (i : Bool) :
      s.pcOf i = .sleeping → s.tokens = false →
      TokenStep s { s.setPc i .fetching with refreshing := true }
  | fetchOk {s : TokenState} (i : Bool) :
      s.pcOf i = .fetching →
      TokenStep s { s.setPc i .finished with refreshing := false, tokens := true }
  | fetchFail {s : TokenState} (i : Bool) :
      s.pcOf i = .fetching →
      TokenStep s { s.setPc i .finished with refreshing := false }

/-- Number of token-refresh HTML fetches currently in flight. -/
def refreshFetchesInFlight (s : TokenState) : Nat :=
  (if s.pc1 = CallerPc.fetching then 1 else 0) +
    (if s.pc2 = CallerPc.fetching then 1 else 0)

/-- Both callers about to enter `getTokens`, no tokens cached. -/
def initTokenState : TokenState :=
  { refreshing := false, tokens := false, pc1 := .entry, pc2 := .entry }

def TokenReachable (s : TokenState) : Prop :=
  Relation.ReflTransGen TokenStep initTokenState s

/-- Claim C3, counterexample.: A reachable state with *two* refresh fetches
in flight: caller 1 starts the refresh; caller 2 sees the flag and sleeps;
caller 2's 100 ms sleep elapses before the fetch resolves, tokens are
still absent, so caller 2 starts its own duplicate fetch.  This refutes
"at most one token-refresh fetch in flight at every reachable state". -/
theorem c3_counterexample :
    TokenReachable ⟨true, false, .fetching, .fetching⟩ ∧
      refreshFetchesInFlight ⟨true, false, .fetching, .fetching⟩ = 2 ∧
      ¬ (∀ s, TokenReachable s → refreshFetchesInFlight s ≤ 1) := by
  have hreach : TokenReachable ⟨true, false, .fetching, .fetching⟩ := by
    refine Relation.ReflTransGen.head (TokenStep.beginRefresh true rfl rfl) ?_
    refine Relation.ReflTransGen.head (TokenStep.sleep false rfl rfl) ?_
    refine Relation.ReflTransGen.head (TokenStep.wakeRefresh false rfl rfl) ?_
    exact Relation.ReflTransGen.refl
  refine ⟨hreach, by decide, ?_⟩
  intro hall
  have h2 := hall _ hreach
  have hval : refreshFetchesInFlight ⟨true, false, .fetching, .fetching⟩ = 2 := by
    decide
  omega

/-- Claim C3 (amended).: What the sleep-and-recheck guard does guarantee:
a caller asleep in the 100 ms wait while the tokens are already cached
never starts a fetch on its next step — it wakes and reuses the cached
result (and the cached tokens survive every step).  Duplicate fetches are
only possible when the first refresh has not finished within the sleep,
as exhibited by `c3_counterexample`. -/
theorem c3_sleeper_reuses_tokens (s s' : TokenState) (i : Bool)
    (hstep : TokenStep s s') (hpc : s.pcOf i = CallerPc.sleeping)
    (htok : s.tokens = true) :
    s'.pcOf i ≠ CallerPc.fetching ∧ s'.tokens = true := by
  cases hstep with
  | sleep j hj1 hj2 =>
    cases i <;> cases j <;>
      simp_all [TokenState.pcOf, TokenState.setPc]
  | beginRefresh j hj1 hj2 =>
    cases i <;> cases j <;>
      simp_all [TokenState.pcOf, TokenState.setPc]
  | wakeReuse j hj1 hj2 =>
    cases i <;> cases j <;>
      simp_all [TokenState.pcOf, TokenState.setPc]
  | wakeRefresh j hj1 hj2 =>
    cases i <;> cases j <;>
      simp_all [TokenState.pcOf, TokenState.setPc]
  | fetchOk j hj1 =>
    cases i <;> cases j <;>
      simp_all [TokenState.pcOf, TokenState.setPc]
  | fetchFail j hj1 =>
    cases i <;> cases j <;>
      simp_all [TokenState.pcOf, TokenState.setPc]

/-- Witness for `c3_sleeper_reuses_tokens`: caller 1 asleep with tokens
cached wakes via `wakeReuse` and finishes without fetching. -/
theorem c3_witness :
    TokenState.pcOf ⟨false, true, .finished, .entry⟩ true ≠ CallerPc.fetching ∧
      TokenState.tokens ⟨false, true, .finished, .entry⟩ = true :=
  c3_sleeper_reuses_tokens ⟨false, true, .sleeping, .entry⟩
    ⟨false, true, .finished, .entry⟩
    true (TokenStep.wakeReuse true rfl rfl) rfl rfl

/-! ## Upload queue (`src/services/upload-queue.ts`)

`processQueue` drains the currently pending items in order; each item is
processed inside `try`/`catch`, and a thrown error only marks *that* item
as `error`.  `processItem` first re-fetches the notebook and runs
`checkDuplicate`; a duplicate is a soft stop (`status: 'error'`,
`"Source already exists in notebook"`) with no add-source RPC.  We model
the current notebook sources as an input list (the result of the
`getNotebook` fetch inside `checkDuplicate`; the catch branch that treats
a *failed* fetch as "no duplicate" is outside this model), the type-
specific `switch` body as a function returning the RPC calls it issues
plus its outcome, and the inline `normalizeUrl` helper (which uses the
browser's WHATWG `URL` parser) as a function parameter. -/

/-- JS `toLowerCase` (per character). -/
def toLower (s : List Char) : List Char := s.map Char.toLower

/-- ASCII whitespace as trimmed by JS `trim` (the full JS set also trims
Unicode spaces, which the claims never exercise). -/
def isJsSpace (c : Char) : Bool :=
  (c == ' ') || (c == '\t') || (c == '\n') || (c == '\r')

/-- JS `String.prototype.trim`. -/
def trim (s : List Char) : List Char :=
  ((s.dropWhile isJsSpace).reverse.dropWhile isJsSpace).reverse

/-- JS `s.split(pat)[0]`: the text before the first occurrence of `pat`
(the whole string when `pat` does not occur). -/
def beforeFirst (pat : List Char) : List Char → List Char
  | [] => []
  | c :: rest =>
    if pat.isPrefixOf (c :: rest) then []
    else c :: beforeFirst pat rest

/-- A source row of the notebook as returned by
`NotebookLMService.getNotebook` (see `parseSourceRow` below). -/
structure Source where
  id : List Char
  title : List Char
  type : List Char
  typeCode : Int
  url : Option (List Char)
  status : Int
  deriving DecidableEq

inductive ItemType
  | page | selection | file | youtube | note
  deriving DecidableEq

inductive ItemStatus
  | pending | processing | done | error
  deriving DecidableEq

/-- An upload-queue item (the fields the queue logic reads). -/
structure UploadItem where
  id : Nat
  type : ItemType
  title : List Char
  content : Option (List Char)
  url : Option (List Char)
  status : ItemStatus
  error : Option (List Char)
  deriving DecidableEq

/-- The source's `UploadQueue.checkDuplicate` (lines 46–140): first the title check
(exact, or equal after `toLowerCase().trim()`) — skipped entirely when the
item's title is the empty string, because `if (title)` is falsy then;
next, for `youtube`/`page` items, the normalized-URL comparison; for
`note`/`file`/`selection` items, the exact-or-chunk-base-title check. -/
def checkDuplicate (normalizeUrl : List Char → List Char)
    (sources : List Source) (item : UploadItem) : Bool :=
  let titleDup :=
    if item.title.isEmpty then false
    else
      sources.any (fun source =>
        (source.title == item.title) ||
          (trim (toLower source.title) == trim (toLower item.title)))
  if titleDup then true
  else if item.type == ItemType.youtube || item.type == ItemType.page then
    match item.url with
    | none => false
    | some url =>
      sources.any (fun source =>
        match source.url with
        | none => false
        | some sourceUrl => normalizeUrl sourceUrl == normalizeUrl url)
  else if item.type == ItemType.note || item.type == ItemType.file ||
      item.type == ItemType.selection then
    if item.title.isEmpty then false
    else
      sources.any (fun source =>
        (source.title == item.title) ||
          (jsIncludes "(Part".toList item.title &&
            (trim (beforeFirst "(Part".toList item.title)).isPrefixOf
              source.title))
  else false

/-- The RPC calls the queue can issue while processing one item. -/
inductive QueueRpc
  | getNotebookCall
  | addTextSourceCall (title text : List Char)
  | addSourceUrlCall (title url : List Char)
  | addFileSourceCall (fileName : List Char)
  deriving DecidableEq

def isAddSourceCall : QueueRpc → Bool
  | .getNotebookCall => false
  | .addTextSourceCall _ _ => true
  | .addSourceUrlCall _ _ => true
  | .addFileSourceCall _ => true

/-- The source's `'Source already exists in notebook'` — the soft-stop message. -/
def dupErrorMessage : List Char := "Source already exists in notebook".toList

/-- The source's `'RPC returned error code:'` — the `includes` literal of the catch
blocks (no trailing space, unlike the regex). -/
def rpcCatchIncludes : List Char := "RPC returned error code:".toList

/-- The literal part of the catch blocks' regex
`/RPC returned error code: (\d+)/`. -/
def rpcCatchPre : List Char := "RPC returned error code: ".toList

/-- The source's `"<title> (Part i/N)"`. -/
def partTitle (title : List Char) (i n : Nat) : List Char :=
  title ++ " (Part ".toList ++ (toString i).toList ++ "/".toList ++
    (toString n).toList ++ ")".toList

/-- The `case 'note'` body of `processItem` (lines 310–348): content above
`CHUNK_SIZE` characters is split and each chunk submitted as
`"<title> (Part i/N)"` with a `waitForTextSource` (a notebook fetch) per
chunk; otherwise one `addTextSource` plus one `waitForTextSource`. -/
def noteBody (chunkSize chunkOverlap : Nat) (item : UploadItem) :
    List QueueRpc × Except (List Char) Unit :=
  let noteContent := item.content.getD []
  if chunkSize < noteContent.length then
    let chunks := splitText chunkSize chunkOverlap noteContent
    ((chunks.map (fun c =>
        [QueueRpc.addTextSourceCall
            (partTitle item.title (c.index + 1) chunks.length) c.text,
          QueueRpc.getNotebookCall])).flatten,
      Except.ok ())
  else
    ([QueueRpc.addTextSourceCall item.title noteContent,
      QueueRpc.getNotebookCall],
      Except.ok ())

/-- The source's `UploadQueue.processItem` (lines 145–377), generic in the type-specific
`switch` body: the duplicate check runs first (its notebook fetch is the
leading `getNotebookCall`) and soft-stops with no further call; otherwise
the body runs and the item ends `done`, except that a thrown
`RPC returned error code: <code>` with an allow-listed code is converted
to `done` by the catch block, and any other throw is rethrown (as
`Except.error`) for `processQueue`'s catch to record. -/
def processItem (normalizeUrl : List Char → List Char)
    (body : UploadItem → List QueueRpc × Except (List Char) Unit)
    (sources : List Source) (item : UploadItem) :
    List QueueRpc × Except (List Char) UploadItem :=
  if checkDuplicate normalizeUrl sources item then
    ([QueueRpc.getNotebookCall],
      Except.ok { item with status := .error, error := some dupErrorMessage })
  else
    match body item with
    | (calls, Except.ok _) =>
      (QueueRpc.getNotebookCall :: calls,
        Except.ok { item with status := .done, error := none })
    | (calls, Except.error msg) =>
      if jsIncludes rpcCatchIncludes msg then
        match scanCode rpcCatchPre false msg with
        | some errorCode =>
          if errorCode ∈ normalErrorCodes then
            (QueueRpc.getNotebookCall :: calls,
              Except.ok { item with status := .done, error := none })
          else (QueueRpc.getNotebookCall :: calls, Except.error msg)
        | none => (QueueRpc.getNotebookCall :: calls, Except.error msg)
      else (QueueRpc.getNotebookCall :: calls, Except.error msg)

/-- One turn of `processQueue`'s `for` loop, with its `try`/`catch`: a
rethrown error is recorded on the item and does not escape. -/
def runQueueItem (normalizeUrl : List Char → List Char)
    (body : UploadItem → List QueueRpc × Except (List Char) Unit)
    (sources : List Source) (item : UploadItem) : UploadItem :=
  match processItem normalizeUrl body sources item with
  | (_, Except.ok itemDone) => itemDone
  | (_, Except.error msg) =>
    { item with status := ItemStatus.error, error := some msg }

/-- The source's `UploadQueue.processQueue` (lines 17–41): drain the currently pending
items in FIFO order (the single-flight `isProcessing` guard and the 1 s
inter-item delay do not affect the per-item results). -/
def processQueue (normalizeUrl : List Char → List Char)
    (body : UploadItem → List QueueRpc × Except (List Char) Unit)
    (sources : List Source) (queue : List UploadItem) : List UploadItem :=
  (queue.filter (fun it => it.status == ItemStatus.pending)).map
    (runQueueItem normalizeUrl body sources)

/-- A non-throwing `processItem` always leaves the item in a terminal
state: `done`, or `error` for the duplicate soft stop. -/
theorem processItem_ok_status (normalizeUrl : List Char → List Char)
    (body : UploadItem → List QueueRpc × Except (List Char) Unit)
    (sources : List Source) (item itemDone : UploadItem)
    (tr : List QueueRpc)
    (h : processItem normalizeUrl body sources item = (tr, Except.ok itemDone)) :
    itemDone.status = ItemStatus.done ∨ itemDone.status = ItemStatus.error := by
  unfold processItem at h
  by_cases hdup : checkDuplicate normalizeUrl sources item = true
  · rw [if_pos hdup] at h
    injection h with h1 h2
    injection h2 with h3
    right
    rw [← h3]
  · rw [if_neg hdup] at h
    cases hbody : body item with
    | mk calls r =>
      rw [hbody] at h
      cases r with
      | ok u =>
        injection h with h1 h2
        injection h2 with h3
        left
        rw [← h3]
      | error msg =>
        dsimp only at h
        by_cases hinc : jsIncludes rpcCatchIncludes msg = true
        · rw [if_pos hinc] at h
          cases hscan : scanCode rpcCatchPre false msg with
          | some code =>
            rw [hscan] at h
            dsimp only at h
            by_cases hmem : code ∈ normalErrorCodes
            · rw [if_pos hmem] at h
              injection h with h1 h2
              injection h2 with h3
              left
              rw [← h3]
            · rw [if_neg hmem] at h
              injection h with h1 h2
              exact absurd h2 (by simp)
          | none =>
            rw [hscan] at h
            dsimp only at h
            injection h with h1 h2
            exact absurd h2 (by simp)
        · rw [if_neg hinc] at h
          injection h with h1 h2
          exact absurd h2 (by simp)

/-- Claim C6.: For any queue, any switch body and any notebook contents:
every pending item of the queue is processed and reaches a terminal state
(`done` or `error`), and an item whose processing throws is itself marked
`error` with the thrown message — one item's failure never halts the rest
of the run (each pending position is processed regardless of the other
items' outcomes). -/
theorem c6_queue_failure_isolation (normalizeUrl : List Char → List Char)
    (body : UploadItem → List QueueRpc × Except (List Char) Unit)
    (sources : List Source) (queue : List UploadItem)
    (i : Nat) (item : UploadItem)
    (hq : (queue.filter (fun it => it.status == ItemStatus.pending))[i]? =
      some item) :
    ∃ itemFinal,
      (processQueue normalizeUrl body sources queue)[i]? = some itemFinal ∧
      (itemFinal.status = ItemStatus.done ∨
        itemFinal.status = ItemStatus.error) ∧
      (∀ tr msg, processItem normalizeUrl body sources item =
          (tr, Except.error msg) →
        itemFinal.status = ItemStatus.error ∧ itemFinal.error = some msg) := by
  refine ⟨runQueueItem normalizeUrl body sources item, ?_, ?_, ?_⟩
  · unfold processQueue
    rw [List.getElem?_map, hq]
    rfl
  · unfold runQueueItem
    cases hpi : processItem normalizeUrl body sources item with
    | mk tr r =>
      cases r with
      | ok itemDone =>
        exact processItem_ok_status normalizeUrl body sources item itemDone tr hpi
      | error msg => right; rfl
  · intro tr msg hpi
    unfold runQueueItem
    rw [hpi]
    exact ⟨rfl, rfl⟩

/-- Witness for `c6_queue_failure_isolation`: a two-item queue whose
(constant) body always throws `boom`; the first pending item is found and
ends in `error` with that message. -/
theorem c6_witness :
    (([⟨0, ItemType.note, "A".toList, some "x".toList, none,
          ItemStatus.pending, none⟩,
        ⟨1, ItemType.note, "B".toList, some "y".toList, none,
          ItemStatus.pending, none⟩] :
        List UploadItem).filter
          (fun it => it.status == ItemStatus.pending))[0]? =
      some ⟨0, ItemType.note, "A".toList, some "x".toList, none,
        ItemStatus.pending, none⟩ ∧
    ∃ itemFinal,
      (processQueue (fun u => u) (fun _ => ([], Except.error "boom".toList)) []
          [⟨0, ItemType.note, "A".toList, some "x".toList, none,
            ItemStatus.pending, none⟩,
          ⟨1, ItemType.note, "B".toList, some "y".toList, none,
            ItemStatus.pending, none⟩])[0]? = some itemFinal ∧
      (itemFinal.status = ItemStatus.done ∨
        itemFinal.status = ItemStatus.error) ∧
      (∀ tr msg, processItem (fun u => u)
          (fun _ => ([], Except.error "boom".toList)) []
          ⟨0, ItemType.note, "A".toList, some "x".toList, none,
            ItemStatus.pending, none⟩ = (tr, Except.error msg) →
        itemFinal.status = ItemStatus.error ∧ itemFinal.error = some msg) :=
  ⟨by decide,
    c6_queue_failure_isolation (fun u => u)
      (fun _ => ([], Except.error "boom".toList)) [] _ 0 _ (by decide)⟩

/-- Claim C7, counterexample.: `checkDuplicate`'s title check is guarded by
JS truthiness (`if (title)`), so an item whose title is the *empty string*
skips it even when an existing source has the identical (empty) title:
the item is processed normally — it ends `done` and an add-source RPC
*is* issued, where the claim requires an `error` status and no RPC. -/
theorem c7_counterexample :
    processItem (fun u => u) (noteBody 225000 1000)
        [⟨"u1".toList, [], "text".toList, 2, none, 2⟩]
        ⟨0, ItemType.note, [], some "x".toList, none, ItemStatus.pending,
          none⟩ =
      ([QueueRpc.getNotebookCall, QueueRpc.addTextSourceCall [] "x".toList,
          QueueRpc.getNotebookCall],
        Except.ok ⟨0, ItemType.note, [], some "x".toList, none,
          ItemStatus.done, none⟩) ∧
      (([] : List Char) = ([] : List Char)) := by
  refine ⟨by decide, rfl⟩

/-- Claim C7 (amended: nonempty item title).: If the item's title is
nonempty and matches an existing source's title — exactly, or after
lower-casing and trimming — then `processItem` soft-stops: the item ends
in `error` with the message `Source already exists in notebook`
(which contains `"already exists"`), and the only RPC issued is the
duplicate check's notebook fetch — no add-source call of any kind. -/
theorem c7_duplicate_title (normalizeUrl : List Char → List Char)
    (body : UploadItem → List QueueRpc × Except (List Char) Unit)
    (sources : List Source) (item : UploadItem)
    (hne : item.title ≠ [])
    (src0 : Source) (hmem : src0 ∈ sources)
    (hmatch : src0.title = item.title ∨
      trim (toLower src0.title) = trim (toLower item.title)) :
    processItem normalizeUrl body sources item =
        ([QueueRpc.getNotebookCall],
          Except.ok { item with status := ItemStatus.error, error := some dupErrorMessage }) ∧
      jsIncludes "already exists".toList dupErrorMessage = true ∧
      ([QueueRpc.getNotebookCall].all fun c => !(isAddSourceCall c)) = true := by
  have hdup : checkDuplicate normalizeUrl sources item = true := by
    unfold checkDuplicate
    have hempty : item.title.isEmpty = false := by
      cases htl : item.title with
      | nil => exact absurd htl hne
      | cons c rest => rfl
    have hany : sources.any (fun source =>
        (source.title == item.title) ||
          (trim (toLower source.title) == trim (toLower item.title))) = true := by
      rw [List.any_eq_true]
      refine ⟨src0, hmem, ?_⟩
      rcases hmatch with hm | hm
      · rw [Bool.or_eq_true, beq_iff_eq]
        exact Or.inl hm
      · rw [Bool.or_eq_true, beq_iff_eq, beq_iff_eq]
        exact Or.inr hm
    rw [hempty]
    dsimp only
    rw [hany]
    rfl
  refine ⟨?_, by decide, by decide⟩
  unfold processItem
  rw [if_pos hdup]

/-- Witness for `c7_duplicate_title`: an item titled `"Doc"` against a
notebook already holding a source titled `" doc "`. -/
theorem c7_witness :
    ("Doc".toList ≠ ([] : List Char)) ∧
      (processItem (fun u => u) (noteBody 225000 1000)
          [⟨"u1".toList, " doc ".toList, "text".toList, 2, none, 2⟩]
          ⟨0, ItemType.note, "Doc".toList, some "x".toList, none,
            ItemStatus.pending, none⟩ =
        ([QueueRpc.getNotebookCall],
          Except.ok ⟨0, ItemType.note, "Doc".toList, some "x".toList, none,
            ItemStatus.error, some dupErrorMessage⟩) ∧
      jsIncludes "already exists".toList dupErrorMessage = true ∧
      ([QueueRpc.getNotebookCall].all fun c => !(isAddSourceCall c)) = true) :=
  ⟨by decide,
    c7_duplicate_title (fun u => u) (noteBody 225000 1000)
      [⟨"u1".toList, " doc ".toList, "text".toList, 2, none, 2⟩]
      ⟨0, ItemType.note, "Doc".toList, some "x".toList, none,
        ItemStatus.pending, none⟩
      (by decide)
      ⟨"u1".toList, " doc ".toList, "text".toList, 2, none, 2⟩
      (by decide) (Or.inr (by decide))⟩

/-! ## Anki flashcard export (`flashcardsToAnki`,
`src/services/export-formats.ts` lines 271–278) -/

/-- A flashcard as exported (`{id, front, back, tags?}`). -/
structure Flashcard where
  id : List Char
  front : List Char
  back : List Char
  tags : Option (List (List Char))
  deriving DecidableEq

/-- JS `s.replace(/\t/g, ' ')`. -/
def replaceTabs (s : List Char) : List Char :=
  s.map (fun c => if c = '\t' then ' ' else c)

/-- JS `Array.prototype.join(sep)`. -/
def jsJoin (sep : List Char) : List (List Char) → List Char
  | [] => []
  | [x] => x
  | x :: y :: rest => x ++ sep ++ jsJoin sep (y :: rest)

/-- One Anki row:
`front.replace(/\t/g,' ') + '\t' + back.replace(/\t/g,' ') + '\t' + (tags ?? []).join(' ')`. -/
def ankiLine (fc : Flashcard) : List Char :=
  replaceTabs fc.front ++ ['\t'] ++ replaceTabs fc.back ++ ['\t'] ++
    jsJoin [' '] (fc.tags.getD [])

/-- The source's `flashcardsToAnki`: the rows joined with `'\n'`. -/
def flashcardsToAnki (flashcards : List Flashcard) : List Char :=
  jsJoin ['\n'] (flashcards.map ankiLine)

theorem mem_jsJoin {c : Char} {sep : List Char} :
    ∀ {xs : List (List Char)}, c ∈ jsJoin sep xs →
      c ∈ sep ∨ ∃ x ∈ xs, c ∈ x := by
  intro xs
  induction xs with
  | nil => intro h; simp [jsJoin] at h
  | cons x rest ih =>
    intro h
    cases rest with
    | nil =>
      simp only [jsJoin] at h
      exact Or.inr ⟨x, by simp, h⟩
    | cons y rest' =>
      simp only [jsJoin, List.mem_append] at h
      rcases h with (h | h) | h
      · exact Or.inr ⟨x, by simp, h⟩
      · exact Or.inl h
      · rcases ih h with h | ⟨z, hz, hc⟩
        · exact Or.inl h
        · exact Or.inr ⟨z, List.mem_cons_of_mem x hz, hc⟩

theorem not_mem_replaceTabs_newline {s : List Char} (h : '\n' ∉ s) :
    '\n' ∉ replaceTabs s := by
  intro hmem
  unfold replaceTabs at hmem
  obtain ⟨c, hc, heq⟩ := List.mem_map.mp hmem
  by_cases ht : c = '\t'
  · rw [if_pos ht] at heq
    exact absurd heq (by decide)
  · rw [if_neg ht] at heq
    exact h (heq ▸ hc)

theorem not_mem_replaceTabs_tab (s : List Char) : '\t' ∉ replaceTabs s := by
  intro hmem
  unfold replaceTabs at hmem
  obtain ⟨c, hc, heq⟩ := List.mem_map.mp hmem
  by_cases ht : c = '\t'
  · rw [if_pos ht] at heq
    exact absurd heq (by decide)
  · rw [if_neg ht] at heq
    exact ht heq

/-- Claim C9, counterexample.: A single flashcard whose front embeds a
newline: the output splits into 2 newline-separated lines, not 1, and the
first line has no tab at all — embedded newlines are not replaced, so the
claimed line/tab structure fails. -/
theorem c9_counterexample :
    ((flashcardsToAnki [⟨"1".toList, ['a', '\n', 'b'], ['c'], none⟩]).splitOn
        '\n').length = 2 ∧
      ¬ ((flashcardsToAnki [⟨"1".toList, ['a', '\n', 'b'], ['c'], none⟩]).splitOn
          '\n').length = 1 := by
  refine ⟨by decide, by decide⟩

/-- Claim C9 (amended: fronts/backs free of newlines, tags free of tabs and
newlines).: Then the output is exactly the `n` rows joined by `'\n'`,
there are as many rows as flashcards, no row contains a newline (so the
output really has `n` newline-separated lines), and each row contains
exactly two tab characters — the separators between the tab-sanitised
front, the tab-sanitised back, and the tags joined by spaces. -/
theorem c9_anki_format (flashcards : List Flashcard)
    (hfront : ∀ fc ∈ flashcards, '\n' ∉ fc.front)
    (hback : ∀ fc ∈ flashcards, '\n' ∉ fc.back)
    (htags : ∀ fc ∈ flashcards, ∀ tag ∈ fc.tags.getD [],
      '\n' ∉ tag ∧ '\t' ∉ tag) :
    flashcardsToAnki flashcards = jsJoin ['\n'] (flashcards.map ankiLine) ∧
      (flashcards.map ankiLine).length = flashcards.length ∧
      (∀ fc ∈ flashcards, '\n' ∉ ankiLine fc) ∧
      (∀ fc ∈ flashcards, (ankiLine fc).count '\t' = 2) := by
  refine ⟨rfl, List.length_map _ _, ?_, ?_⟩
  · intro fc hfc hmem
    unfold ankiLine at hmem
    simp only [List.mem_append] at hmem
    rcases hmem with (((h | h) | h) | h) | h
    · exact not_mem_replaceTabs_newline (hfront fc hfc) h
    · exact absurd h (by decide)
    · exact not_mem_replaceTabs_newline (hback fc hfc) h
    · exact absurd h (by decide)
    · rcases mem_jsJoin h with h | ⟨tag, htag, hc⟩
      · exact absurd h (by decide)
      · exact (htags fc hfc tag htag).1 hc
  · intro fc hfc
    unfold ankiLine
    have h1 : (replaceTabs fc.front).count '\t' = 0 :=
      List.count_eq_zero.mpr (not_mem_replaceTabs_tab _)
    have h2 : (replaceTabs fc.back).count '\t' = 0 :=
      List.count_eq_zero.mpr (not_mem_replaceTabs_tab _)
    have h3 : (jsJoin [' '] (fc.tags.getD [])).count '\t' = 0 := by
      apply List.count_eq_zero.mpr
      intro hmem
      rcases mem_jsJoin hmem with h | ⟨tag, htag, hc⟩
      · exact absurd h (by decide)
      · exact (htags fc hfc tag htag).2 hc
    simp [List.count_append, h1, h2, h3]

/-- Witness for `c9_anki_format` at two concrete flashcards (one with two
tags, one untagged). -/
theorem c9_witness :
    flashcardsToAnki
        [⟨"1".toList, "q1".toList, "a1".toList,
            some ["x".toList, "y".toList]⟩,
          ⟨"2".toList, "q2".toList, "a2".toList, none⟩] =
      jsJoin ['\n']
        (([⟨"1".toList, "q1".toList, "a1".toList,
            some ["x".toList, "y".toList]⟩,
          ⟨"2".toList, "q2".toList, "a2".toList, none⟩] :
            List Flashcard).map ankiLine) ∧
      (([⟨"1".toList, "q1".toList, "a1".toList,
            some ["x".toList, "y".toList]⟩,
          ⟨"2".toList, "q2".toList, "a2".toList, none⟩] :
            List Flashcard).map ankiLine).length =
        ([⟨"1".toList, "q1".toList, "a1".toList,
            some ["x".toList, "y".toList]⟩,
          ⟨"2".toList, "q2".toList, "a2".toList, none⟩] :
            List Flashcard).length ∧
      (∀ fc ∈ ([⟨"1".toList, "q1".toList, "a1".toList,
            some ["x".toList, "y".toList]⟩,
          ⟨"2".toList, "q2".toList, "a2".toList, none⟩] :
            List Flashcard), '\n' ∉ ankiLine fc) ∧
      (∀ fc ∈ ([⟨"1".toList, "q1".toList, "a1".toList,
            some ["x".toList, "y".toList]⟩,
          ⟨"2".toList, "q2".toList, "a2".toList, none⟩] :
            List Flashcard), (ankiLine fc).count '\t' = 2) :=
  c9_anki_format
    [⟨"1".toList, "q1".toList, "a1".toList, some ["x".toList, "y".toList]⟩,
      ⟨"2".toList, "q2".toList, "a2".toList, none⟩]
    (by decide) (by decide) (by decide)

/-! ## DOM extraction failure semantics (`DOMExtractorService`,
`src/services/dom-extractor.ts`)

`extractChatHistory` (lines 401–527) and `extractArtifactsList`
(lines 533–612) both: acquire a NotebookLM tab (returning their declared
empty value `[]` when none is found), then run `chrome.scripting`
injections inside `try`/`catch`, returning `[]` when an injection
rejects or yields no result.  The chrome collaborator boundary is
modelled as an environment record: the tab lookup result and each
injection's outcome. -/

structure ExtractedChatMessage where
  role : List Char
  content : List Char
  deriving DecidableEq

structure ExtractedArtifact where
  id : List Char
  type : List Char
  title : List Char
  hasContent : Bool
  deriving DecidableEq

/-- Outcomes of the chrome tab/scripting collaborator during one
extraction: `tab` is `findNotebookLMTab()`; each injection either rejects
(`Except.error`) or resolves with `results?.[0]?.result`. -/
structure DomEnv where
  tab : Option Nat
  activateChatTab : Nat → Except Unit Unit
  extractMessages : Nat → Except Unit (Option (List ExtractedChatMessage))
  extractArtifacts : Nat → Except Unit (Option (List ExtractedArtifact))

/-- The source's `extractChatHistory`: no tab → `[]`; phase-1 (activate the Chat tab)
or phase-2 (read the message containers) rejecting → caught → `[]`;
missing injection result → `[]`. -/
def extractChatHistory (env : DomEnv) : List ExtractedChatMessage :=
  match env.tab with
  | none => []
  | some tabId =>
    match env.activateChatTab tabId with
    | Except.error _ => []
    | Except.ok _ =>
      match env.extractMessages tabId with
      | Except.error _ => []
      | Except.ok (some msgs) => msgs
      | Except.ok none => []

/-- The source's `extractArtifactsList`: no tab → `[]`; injection rejecting or yielding
no result → `[]`. -/
def extractArtifactsList (env : DomEnv) : List ExtractedArtifact :=
  match env.tab with
  | none => []
  | some tabId =>
    match env.extractArtifacts tabId with
    | Except.error _ => []
    | Except.ok (some arts) => arts
    | Except.ok none => []

/-- Claim C8.: When tab acquisition fails both extraction functions return
their declared empty value `[]`, and when any script injection rejects
they also return `[]` — in the total model no error value ever escapes,
matching "never throws an exception to its caller". -/
theorem c8_dom_extraction_empty_on_failure (env : DomEnv) :
    (env.tab = none →
      extractChatHistory env = [] ∧ extractArtifactsList env = []) ∧
    (∀ tabId, env.tab = some tabId →
      (env.activateChatTab tabId = Except.error () →
        extractChatHistory env = []) ∧
      (env.extractMessages tabId = Except.error () →
        extractChatHistory env = []) ∧
      (env.extractArtifacts tabId = Except.error () →
        extractArtifactsList env = [])) := by
  constructor
  · intro htab
    unfold extractChatHistory extractArtifactsList
    rw [htab]
    exact ⟨rfl, rfl⟩
  · intro tabId htab
    refine ⟨?_, ?_, ?_⟩
    · intro hact
      unfold extractChatHistory
      rw [htab]
      dsimp only
      rw [hact]
    · intro hext
      unfold extractChatHistory
      rw [htab]
      dsimp only
      cases hact : env.activateChatTab tabId with
      | error e => rfl
      | ok u =>
        dsimp only
        rw [hext]
    · intro hext
      unfold extractArtifactsList
      rw [htab]
      dsimp only
      rw [hext]

/-- Witness for `c8_dom_extraction_empty_on_failure`: a concrete
environment with no NotebookLM tab. -/
theorem c8_witness :
    extractChatHistory
        ⟨none, fun _ => Except.ok (), fun _ => Except.ok none,
          fun _ => Except.ok none⟩ = [] ∧
      extractArtifactsList
        ⟨none, fun _ => Except.ok (), fun _ => Except.ok none,
          fun _ => Except.ok none⟩ = [] :=
  (c8_dom_extraction_empty_on_failure
    ⟨none, fun _ => Except.ok (), fun _ => Except.ok none,
      fun _ => Except.ok none⟩).1 rfl

/-! ## Notebook detail parsing
(`NotebookLMService.parseNotebookDetails`, lines 550–678)

The per-source `.map` callback reads a decoded JSON row through `typeof`
tests, `Array.isArray` and positional indexing.  We model JSON values with
an inductive (numbers as integers — every `Number.isInteger` test in this
code is therefore `true`, and a non-integral number in a position the
parser reads is carried through opaquely, which no claim observes), and
conflate JS `undefined` (out-of-bounds index) with `null`: both fail every
test the parser performs. -/

inductive Json where
  | null
  | bool (b : Bool)
  | num (n : Int)
  | str (s : List Char)
  | arr (elems : List Json)
  | obj

/-- JS `x[i]` for the parser's uses: indexing a non-array, or out of
bounds, yields a value that fails every test (modelled `null`). -/
def jget (j : Json) (i : Nat) : Json :=
  match j with
  | .arr xs => xs.getD i .null
  | _ => .null

/-- The source's `isUUID` (the `^[a-f0-9]{8}-…$/i` regex): five dash-separated groups
of hex digits with lengths 8-4-4-4-12. -/
def isHexDigit (c : Char) : Bool :=
  c.isDigit || (('a' ≤ c) && (c ≤ 'f')) || (('A' ≤ c) && (c ≤ 'F'))

def isUUID (s : List Char) : Bool :=
  ((s.splitOn '-').map List.length == [8, 4, 4, 4, 12]) &&
    (s.splitOn '-').all (fun part => part.all isHexDigit)

/-- The source's `isURL`. -/
def isURL (s : List Char) : Bool :=
  "http://".toList.isPrefixOf s || "https://".toList.isPrefixOf s

/-- First `some` produced by `f` over a list (JS `for … return found`). -/
def listFindSome {α : Type} (f : Json → Option α) : List Json → Option α
  | [] => none
  | x :: rest =>
    match f x with
    | some u => some u
    | none => listFindSome f rest

/-- The source's `findURLInStructure(data, depth)`: depth-first search for a URL-shaped
string, giving up below depth 5.  `fuel = 6 - depth`, so the source's
root call (depth 0) is `fuel = 6`. -/
def findURLInStructure : Nat → Json → Option (List Char)
  | 0, _ => none
  | fuel + 1, j =>
    match j with
    | .str s => if isURL s then some s else none
    | .arr elems => listFindSome (fun x => findURLInStructure fuel x) elems
    | _ => none

def findURLInSource (j : Json) : Option (List Char) :=
  findURLInStructure 6 j

/-- The source's `API_TYPE_MAP`. -/
def API_TYPE_MAP : List (Int × List Char) :=
  [(1, "gdrive".toList), (2, "text".toList), (3, "pdf".toList),
    (4, "text".toList), (5, "url".toList), (6, "slides".toList),
    (7, "pdf".toList), (8, "note".toList), (9, "youtube".toList),
    (10, "video".toList), (13, "image".toList), (14, "pdf".toList),
    (15, "mindmap".toList)]

/-- The source's `API_TYPE_MAP[k]` / `k in API_TYPE_MAP`. -/
def apiTypeLookup (k : Int) : Option (List Char) :=
  (API_TYPE_MAP.find? (fun p => p.1 == k)).map Prod.snd

/-- Source id: `src[0][0]` when `src[0]` is a nonempty array with a string
head, else `src[0]` itself when it is a UUID string, else `''`. -/
def idFromRow (src : List Json) : List Char :=
  match src.getD 0 Json.null with
  | .arr xs =>
    if 0 < xs.length then
      match xs.getD 0 Json.null with
      | .str s => s
      | _ => []
    else []
  | .str s => if isUUID s then s else []
  | _ => []

/-- Type code at `src[2][4]` (`meta.length > 4 && typeof meta[4] ===
'number' && Number.isInteger(meta[4])`). -/
def typeFromMeta (src : List Json) : Option Int :=
  match src.getD 2 Json.null with
  | .arr meta =>
    if 4 < meta.length then
      match meta.getD 4 Json.null with
      | .num n => some n
      | _ => none
    else none
  | _ => none

/-- URL at `src[2][7][0]`. -/
def urlFromMeta (src : List Json) : Option (List Char) :=
  match src.getD 2 Json.null with
  | .arr meta =>
    if 7 < meta.length then
      match meta.getD 7 Json.null with
      | .arr u =>
        if 0 < u.length then
          match u.getD 0 Json.null with
          | .str s => some s
          | _ => none
        else none
      | _ => none
    else none
  | _ => none

/-- Status at `src[3][1]` (`Array.isArray(source[3]) && source[3].length >
1 && typeof source[3][1] === 'number'`). -/
def statusFromRow (src : List Json) : Option Int :=
  match src.getD 3 Json.null with
  | .arr st =>
    if 1 < st.length then
      match st.getD 1 Json.null with
      | .num n => some n
      | _ => none
    else none
  | _ => none

/-- The broader fallback search for a type code: positions `2 ≤ i <
min(src.length, 5)`, first integer element that is an `API_TYPE_MAP`
key. -/
def typeFromItems : List Json → Option Int
  | [] => none
  | x :: rest =>
    match x with
    | .num n => if (apiTypeLookup n).isSome then some n else typeFromItems rest
    | _ => typeFromItems rest

def scanRowForType (src : List Json) : Option Int :=
  ((List.range (min src.length 5)).drop 2).findSome? (fun i =>
    match src.getD i Json.null with
    | .arr elems => typeFromItems elems
    | _ => none)

/-- The source's `/\.pdf(\?|$)/i`. -/
def matchPdf (u : List Char) : Bool :=
  jsIncludes ".pdf?".toList (toLower u) || ".pdf".toList.isSuffixOf (toLower u)

/-- Inferring the type code from the URL when no explicit code was
found. -/
def inferTypeFromUrl (u : List Char) : Int :=
  if jsIncludes "youtube.com".toList u || jsIncludes "youtu.be".toList u then 9
  else if matchPdf u then 3
  else if jsIncludes "docs.google.com".toList u ||
      jsIncludes "drive.google.com".toList u then 1
  else 5

/-- The type code after the fixed-index read and the broader search
(`apiTypeCode === 0 || !(apiTypeCode in API_TYPE_MAP)` triggers the
search; only a found key overwrites). -/
def typeAfterScan (src : List Json) : Int :=
  if (typeFromMeta src).getD 0 = 0 ∨
      (apiTypeLookup ((typeFromMeta src).getD 0)).isNone then
    (scanRowForType src).getD ((typeFromMeta src).getD 0)
  else (typeFromMeta src).getD 0

/-- The URL after the fixed-index read and the structural fallback
(an empty string at `src[2][7][0]` is falsy in JS, so the fallback also
runs and replaces it). -/
def resolvedUrl (src : List Json) : Option (List Char) :=
  match urlFromMeta src with
  | some u => if u.isEmpty then findURLInSource (Json.arr src) else some u
  | none => findURLInSource (Json.arr src)

/-- The type code after URL inference (`apiTypeCode === 0 && sourceUrl`). -/
def preTypeCode (src : List Json) : Int :=
  if typeAfterScan src = 0 then
    match resolvedUrl src with
    | some u => inferTypeFromUrl u
    | none => typeAfterScan src
  else typeAfterScan src

/-- The final type code: `if (apiTypeCode === 0) apiTypeCode = 2`. -/
def typeCodeOfRow (src : List Json) : Int :=
  if preTypeCode src = 0 then 2 else preTypeCode src

/-- The final status: default `2` (READY) unless `src[3][1]` is a
number. -/
def statusOfRow (src : List Json) : Int :=
  (statusFromRow src).getD 2

/-- The last-resort title scan: from the end of the row, the first string
longer than one character that is not a UUID, not a URL, not all digits
and not the source id. -/
def plausibleTitle (sourceId : List Char) (src : List Json) : Option (List Char) :=
  src.reverse.findSome? (fun item =>
    match item with
    | .str s =>
      if (1 < s.length) && !(isUUID s) && !(isURL s) &&
          !(!s.isEmpty && s.all Char.isDigit) && !(s == sourceId) then
        some s
      else none
    | _ => none)

/-- Model of the `new URL(sourceUrl)` title fallback: last nonempty path
segment with `[_-]` replaced by spaces, else the hostname, else (when the
URL parser would throw) the first 80 characters.  `decodeURIComponent` is
modelled as the identity and the WHATWG parser as scheme/host/path
splitting; no claim depends on the title. -/
def titleFromUrl (url : List Char) : List Char :=
  if isURL url then
    let rest := if "http://".toList.isPrefixOf url then url.drop 7 else url.drop 8
    let segments := ((rest.splitOn '/').drop 1).filter (fun s => !s.isEmpty)
    match segments.getLast? with
    | some seg => seg.map (fun c => if c = '_' ∨ c = '-' then ' ' else c)
    | none => (rest.splitOn '/').headD []
  else url.take 80

/-- The title after all three strategies. -/
def titleOfRow (src : List Json) : List Char :=
  let title1 :=
    match src.getD 1 Json.null with
    | .str s => if s.isEmpty then "Untitled".toList else s
    | _ => "Untitled".toList
  let title2 :=
    if title1 = "Untitled".toList then
      (plausibleTitle (idFromRow src) src).getD title1
    else title1
  if title2 = "Untitled".toList then
    match resolvedUrl src with
    | some u => titleFromUrl u
    | none => title2
  else title2

/-- The `.map` callback of `parseNotebookDetails` for one source row. -/
def parseSourceRow (src : List Json) : Source :=
  { id := idFromRow src, title := titleOfRow src,
    type := (apiTypeLookup (typeCodeOfRow src)).getD "unknown".toList,
    typeCode := typeCodeOfRow src, url := resolvedUrl src,
    status := statusOfRow src }

/-- The `sources` list of `parseNotebookDetails`: rows that are nonempty
arrays, mapped through the callback. -/
def parseNotebookSources (sourcesArray : List Json) : List Source :=
  ((sourcesArray.filter (fun s =>
      match s with
      | Json.arr xs => !xs.isEmpty
      | _ => false)).map (fun s =>
    parseSourceRow
      (match s with
      | Json.arr xs => xs
      | _ => [])))

theorem typeCodeOfRow_ne_zero (src : List Json) : typeCodeOfRow src ≠ 0 := by
  unfold typeCodeOfRow
  by_cases h : preTypeCode src = 0
  · rw [if_pos h]
    decide
  · rw [if_neg h]
    exact h

/-- Claim C10.: Every source returned by the notebook-detail parser carries
a permissive default classification: no parsed source ever has
`typeCode = 0`; a row in which no type code is found — nothing at the
fixed index `src[2][4]`, nothing by the broader structural search, and no
URL anywhere to infer from — defaults to `typeCode = 2` (text); and a row
whose `src[3][1]` does not parse as a number gets `status = 2` (ready),
so no source lacks a status. -/
theorem c10_parse_source_defaults (rows : List Json) :
    (∀ s ∈ parseNotebookSources rows, s.typeCode ≠ 0) ∧
    (∀ src : List Json, (typeFromMeta src).getD 0 = 0 →
      scanRowForType src = none → urlFromMeta src = none →
      findURLInSource (Json.arr src) = none →
      (parseSourceRow src).typeCode = 2) ∧
    (∀ src : List Json, statusFromRow src = none →
      (parseSourceRow src).status = 2) := by
  refine ⟨?_, ?_, ?_⟩
  · intro s hs
    unfold parseNotebookSources at hs
    obtain ⟨row, hrow, heq⟩ := List.mem_map.mp hs
    rw [← heq]
    exact typeCodeOfRow_ne_zero _
  · intro src hmeta hscan hmetaUrl hfind
    show typeCodeOfRow src = 2
    have hts : typeAfterScan src = 0 := by
      unfold typeAfterScan
      rw [if_pos (Or.inl hmeta), hscan, hmeta]
      rfl
    have hurl : resolvedUrl src = none := by
      unfold resolvedUrl
      rw [hmetaUrl, hfind]
    unfold typeCodeOfRow preTypeCode
    rw [hts, if_pos rfl, hurl]
    rfl
  · intro src hstatus
    show statusOfRow src = 2
    unfold statusOfRow
    rw [hstatus]
    rfl

/-- Witness for `c10_parse_source_defaults` at a concrete one-row
notebook whose row is the empty array: the parsed source gets the default
`typeCode = 2` and `status = 2`. -/
theorem c10_witness :
    (parseSourceRow []).typeCode = 2 ∧ (parseSourceRow []).status = 2 ∧
      (∀ s ∈ parseNotebookSources [Json.arr [Json.null]], s.typeCode ≠ 0) :=
  ⟨(c10_parse_source_defaults []).2.1 [] (by decide) (by decide) (by decide)
      (by decide),
    (c10_parse_source_defaults []).2.2 [] (by decide),
    (c10_parse_source_defaults [Json.arr [Json.null]]).1⟩

end NLM
